import Mathlib

/-!
Shallow embedding of the NeuroQuantum Composer core, translated from the
JavaScript source:

* `src/js/quantumLayer.js` — the 2-qubit quantum rhythm simulator
  (`QuantumLayer`): gates, probability normalization, stochastic collapse,
  rhythm-trigger mapping;
* `src/js/inputSystem.js` — the signal tracker (`InputSystem.update`);
* `src/js/app.js` — the trigger scheduler (`App._update`);
* the AI music engine's genre-blend weights (`_updateGenreBlend`,
  `_blendGenreParams`).

JavaScript numbers are modelled as real numbers; `Math.random()` draws are
passed in explicitly as a parameter `r`.  Array indices of the 4-element
state vector are `Fin 4`; JS bit operations on indices are the corresponding
`Nat` bit operations on `Fin.val`.
-/

noncomputable section

namespace NeuroQuantum

/-- The four boolean rhythm flags returned by `QuantumLayer` (the
`RhythmTrigger` of the spec). -/
structure RhythmTrigger where
  kick : Bool
  snare : Bool
  hihat : Bool
  clap : Bool
deriving DecidableEq

/-- The mutable state of a `QuantumLayer` instance: the 4 real amplitudes,
the 4 derived probabilities, the last measurement pair, and the phase. -/
structure QState where
  amplitudes : Fin 4 → ℝ
  probabilities : Fin 4 → ℝ
  lastMeasurement : ℕ × ℕ
  phase : ℝ

/-- JS `(i >> q) & 1`: bit `q` of basis index `i`. -/
def bitOf (i : Fin 4) (q : ℕ) : ℕ := (i.val >>> q) &&& 1

/-- JS `i ^ (1 << q)`: the basis index with bit `q` flipped.  The source only
ever flips bit 0 or bit 1 of an index below 4, where the XOR stays below 4;
the `% 4` merely packages the result as `Fin 4`. -/
def flipBit (i : Fin 4) (q : ℕ) : Fin 4 :=
  ⟨(i.val ^^^ (1 <<< q)) % 4, Nat.mod_lt _ (by norm_num)⟩

/-- `QuantumLayer.applyHadamard`, amplitude part.  The JS loop writes both
members of each basis pair while reading from the old array, so the result is
this pointwise function of the old amplitudes. -/
def applyHadamardAmps (q : ℕ) (a : Fin 4 → ℝ) : Fin 4 → ℝ :=
  fun i =>
    if bitOf i q = 0 then (a i + a (flipBit i q)) / Real.sqrt 2
    else (a (flipBit i q) - a i) / Real.sqrt 2

/-- `QuantumLayer.applyCNOT`, amplitude part: where the control bit is 1, the
amplitude is swapped with the target-flipped index (reading the old array). -/
def applyCNOTAmps (c t : ℕ) (a : Fin 4 → ℝ) : Fin 4 → ℝ :=
  fun i => if bitOf i c = 1 then a (flipBit i t) else a i

/-- `QuantumLayer.applyPhaseRotation`, amplitude part: indices whose bit `q`
is 1 are scaled by `cos phase`; the `imag = sin phase` component computed in
the source is never stored. -/
def applyPhaseRotationAmps (q : ℕ) (phase : ℝ) (a : Fin 4 → ℝ) : Fin 4 → ℝ :=
  fun i => if bitOf i q = 1 then a i * Real.cos phase else a i

/-- The sum `p[0]+p[1]+p[2]+p[3]` of squared amplitudes computed by
`_updateProbabilities` via `reduce`. -/
def sumSquares (a : Fin 4 → ℝ) : ℝ :=
  a 0 ^ 2 + a 1 ^ 2 + a 2 ^ 2 + a 3 ^ 2

/-- `QuantumLayer._updateProbabilities`: square each amplitude, then divide by
the sum when it is positive; otherwise the squares are kept as they are. -/
def updateProbabilities (a : Fin 4 → ℝ) : Fin 4 → ℝ :=
  let p : Fin 4 → ℝ := fun i => a i ^ 2
  let s := p 0 + p 1 + p 2 + p 3
  if s > 0 then fun i => p i / s else p

/-- `QuantumLayer.applyHadamard` on the full state. -/
def applyHadamard (q : ℕ) (s : QState) : QState :=
  let amps := applyHadamardAmps q s.amplitudes
  { s with amplitudes := amps, probabilities := updateProbabilities amps }

/-- `QuantumLayer.applyCNOT` on the full state. -/
def applyCNOT (c t : ℕ) (s : QState) : QState :=
  let amps := applyCNOTAmps c t s.amplitudes
  { s with amplitudes := amps, probabilities := updateProbabilities amps }

/-- `QuantumLayer.applyPhaseRotation` on the full state. -/
def applyPhaseRotation (q : ℕ) (phase : ℝ) (s : QState) : QState :=
  let amps := applyPhaseRotationAmps q phase s.amplitudes
  { s with amplitudes := amps, probabilities := updateProbabilities amps }

/-- `QuantumLayer.reset`: amplitudes and probabilities back to `[1,0,0,0]`. -/
def reset (s : QState) : QState :=
  { s with amplitudes := ![1, 0, 0, 0], probabilities := ![1, 0, 0, 0] }

/-- The collapse loop of `QuantumLayer.measure`, unrolled over the four
indices: the first index whose cumulative probability exceeds the draw `r`,
`none` when the loop finishes without breaking. -/
def collapseIndex (p : Fin 4 → ℝ) (r : ℝ) : Option (Fin 4) :=
  if r < p 0 then some 0
  else if r < p 0 + p 1 then some 1
  else if r < p 0 + p 1 + p 2 then some 2
  else if r < p 0 + p 1 + p 2 + p 3 then some 3
  else none

/-- The one-hot vector written into amplitudes and probabilities on collapse
(`newState = [0,0,0,0]; newState[i] = 1`). -/
def oneHot (i : Fin 4) : Fin 4 → ℝ :=
  fun j => if j = i then 1 else 0

/-- `QuantumLayer._mapMeasurementToRhythm`: combine the two measured bits
into `stateValue` and look up the four drum flags. -/
def mapMeasurementToRhythm (m : ℕ × ℕ) : RhythmTrigger :=
  let stateValue := (m.1 <<< 1) ||| m.2
  { kick := stateValue == 1 || stateValue == 3
    snare := stateValue == 2 || stateValue == 3
    hihat := stateValue == 1 || stateValue == 2
    clap := stateValue == 3 }

/-- `QuantumLayer.measure` with the `Math.random()` draw `r` passed in.  When
the loop breaks at index `i` it records the measurement bits, collapses
amplitudes and probabilities to one-hot at `i`; when it never breaks the
state is left untouched and the trigger is derived from the old
`lastMeasurement`. -/
def measure (s : QState) (r : ℝ) : QState × RhythmTrigger :=
  match collapseIndex s.probabilities r with
  | some i =>
      let m := ((i.val >>> 1) &&& 1, i.val &&& 1)
      let sNew := { s with lastMeasurement := m, amplitudes := oneHot i,
                           probabilities := oneHot i }
      (sNew, mapMeasurementToRhythm m)
  | none => (s, mapMeasurementToRhythm s.lastMeasurement)

/-- The two threshold-guarded Hadamard applications of
`QuantumLayer.processInput` (`hadamardStrength = alphaValue`). -/
def superpositionStage (alpha : ℝ) (s : QState) : QState :=
  let s1 := if alpha > 0.3 then applyHadamard 0 s else s
  if alpha > 0.6 then applyHadamard 1 s1 else s1

/-- Steps 1–6 of `QuantumLayer.processInput`: reset, set
`phase = betaValue * π`, threshold-guarded Hadamards, phase rotation on qubit
0 with the stored phase, CNOT with control 0 and target 1. -/
def processState (alpha beta : ℝ) (s : QState) : QState :=
  let s0 := { reset s with phase := beta * Real.pi }
  let s1 := superpositionStage alpha s0
  let s2 := applyPhaseRotation 0 s1.phase s1
  applyCNOT 0 1 s2

/-- `QuantumLayer.processInput` with the measurement draw `r` explicit. -/
def processInput (alpha beta : ℝ) (s : QState) (r : ℝ) : QState × RhythmTrigger :=
  measure (processState alpha beta s) r

/-- The state built by the `QuantumLayer` constructor. -/
def initState : QState :=
  { amplitudes := ![1, 0, 0, 0], probabilities := ![1, 0, 0, 0],
    lastMeasurement := (0, 0), phase := 0 }

/-- A `QState` whose probability vector is identically zero, with the
constructor's `lastMeasurement = [0,0]`. -/
def zState : QState :=
  { amplitudes := ![0, 0, 0, 0], probabilities := ![0, 0, 0, 0],
    lastMeasurement := (0, 0), phase := 0 }

/-- The mutable state of an `InputSystem` instance (`src/js/inputSystem.js`).
The set of held keys is tracked through its size, the only datum `update`
reads. -/
structure InputState where
  mouseX : ℝ
  mouseY : ℝ
  prevMouseX : ℝ
  prevMouseY : ℝ
  mouseVelocity : ℝ
  mouseDirection : ℝ
  keysPressedCount : ℕ
  keyActivityLevel : ℝ
  alphaValue : ℝ
  betaValue : ℝ

/-- `InputSystem.update`: velocity from pointer displacement, exponential
smoothing of `alphaValue` by the super-linear frequency factor, decay of the
key-activity level and smoothing of `betaValue`; returns the new state
together with the `(alpha, beta)` part of the returned record.
`Math.atan2(dy, dx)` is modelled as `Complex.arg ⟨dx, dy⟩`. -/
def inputUpdate (st : InputState) : InputState × (ℝ × ℝ) :=
  let dx := st.mouseX - st.prevMouseX
  let dy := st.mouseY - st.prevMouseY
  let v := Real.sqrt (dx * dx + dy * dy)
  let dir := if v > 0.1 then Complex.arg ⟨dx, dy⟩ else st.mouseDirection
  let normalizedVelocity := min 1 (v / 20)
  let frequencyFactor := normalizedVelocity ^ (1.5 : ℝ)
  let alpha := st.alphaValue * 0.8 + frequencyFactor * 0.2
  let k := st.keyActivityLevel * 0.95
  let complexityFactor := min 1 ((st.keysPressedCount : ℝ) / 5) * 0.5
  let activityFactor := k * 0.5
  let beta := st.betaValue * 0.7 + (complexityFactor + activityFactor) * 0.3
  ({ st with prevMouseX := st.mouseX, prevMouseY := st.mouseY,
             mouseVelocity := v, mouseDirection := dir,
             keyActivityLevel := k, alphaValue := alpha, betaValue := beta },
   (alpha, beta))

/-- The state reached after `n` ticks of `InputSystem.update` with no pointer
or key events in between (events are DOM callbacks; without them only
`update` itself mutates the state). -/
def inputIter (n : ℕ) (st : InputState) : InputState :=
  (fun t => (inputUpdate t).1)^[n] st

/-- The scheduler state of `App` read by `App._update`
(`src/js/app.js`). -/
structure AppState where
  isRunning : Bool
  lastAlpha : ℝ
  lastBeta : ℝ
  lastRhythmTriggerTime : ℝ
  quantum : QState

/-- What one `App._update` tick forwards to collaborators: the `triggered`
flags of the `visualizer.update` calls, in call order, and the rhythm pattern
passed to `audioSystem.playRhythmPattern` when the tick fired. -/
structure UpdateOutput where
  visUpdates : List Bool
  rhythmFired : Option RhythmTrigger

/-- `this.inputChangeThreshold` of `App`. -/
def inputChangeThreshold : ℝ := 0.05

/-- `baseInterval` of `App._update`. -/
def baseInterval : ℝ := 1000

/-- `minInterval` of `App._update`. -/
def minInterval : ℝ := 300

/-- `adjustedInterval = baseInterval - (alphaValue * (baseInterval - minInterval))`. -/
def adjustedInterval (alpha : ℝ) : ℝ :=
  baseInterval - alpha * (baseInterval - minInterval)

/-- `App._update` with the tick inputs explicit: the drive values returned by
`inputSystem.update`, `Date.now()` as `now`, and the measurement draw `r`.
A `false` visualization update is forwarded on every running tick; the
rhythm branch runs only when the input changed beyond the threshold and the
adjusted interval has elapsed. -/
def appUpdate (st : AppState) (alpha beta now r : ℝ) : AppState × UpdateOutput :=
  if st.isRunning = false then (st, { visUpdates := [], rhythmFired := none })
  else
    let alphaDiff := |alpha - st.lastAlpha|
    let betaDiff := |beta - st.lastBeta|
    if alphaDiff > inputChangeThreshold ∨ betaDiff > inputChangeThreshold then
      if now - st.lastRhythmTriggerTime ≥ adjustedInterval alpha then
        let pq := processInput alpha beta st.quantum r
        ({ st with lastAlpha := alpha, lastBeta := beta,
                   lastRhythmTriggerTime := now, quantum := pq.1 },
         { visUpdates := [false, true], rhythmFired := some pq.2 })
      else
        ({ st with lastAlpha := alpha, lastBeta := beta },
         { visUpdates := [false], rhythmFired := none })
    else (st, { visUpdates := [false], rhythmFired := none })

/-- One genre preset of `AIMusicEngine.genreParams` (the nested
`quantizationInfo` repeats `stepsPerQuarter`). -/
structure GenreParams where
  temperature : ℝ
  stepsPerQuarter : ℝ
  tempoMultiplier : ℝ

/-- The `trance` preset. -/
def tranceParams : GenreParams := ⟨0.8, 4, 1.0⟩

/-- The `dubstep` preset. -/
def dubstepParams : GenreParams := ⟨1.2, 4, 0.5⟩

/-- The `dnb` preset. -/
def dnbParams : GenreParams := ⟨1.0, 6, 1.5⟩

/-- The three genre weights held in `this.genreBlend`. -/
structure GenreBlend where
  trance : ℝ
  dubstep : ℝ
  dnb : ℝ
deriving DecidableEq

/-- `AIMusicEngine._updateGenreBlend`: piecewise-linear simplex weights from
the influence value. -/
def updateGenreBlend (x : ℝ) : GenreBlend :=
  let trance := max 0 (1 - 2 * x)
  let dnb := max 0 (2 * x - 1)
  let dubstep := 1 - trance - dnb
  ⟨trance, dubstep, dnb⟩

/-- `AIMusicEngine._blendGenreParams`: weighted average of one parameter over
the three presets (iteration order `trance`, `dubstep`, `dnb`), divided by
the total weight. -/
def blendGenreParams (param : GenreParams → ℝ) (x : ℝ) : ℝ :=
  let w := updateGenreBlend x
  let blendedValue := param tranceParams * w.trance + param dubstepParams * w.dubstep
    + param dnbParams * w.dnb
  let totalWeight := w.trance + w.dubstep + w.dnb
  blendedValue / totalWeight

/-- A concrete running scheduler state used to exercise `appUpdate`. -/
def schedState : AppState :=
  { isRunning := true, lastAlpha := 0, lastBeta := 0,
    lastRhythmTriggerTime := 0, quantum := initState }

/-- An input-system state with zero pointer displacement, no held keys, both
drive values in `[0,1]`, but a residual key-activity level of 1 (as left
behind by earlier key presses). -/
def staleKeyState : InputState :=
  { mouseX := 0, mouseY := 0, prevMouseX := 0, prevMouseY := 0,
    mouseVelocity := 0, mouseDirection := 0, keysPressedCount := 0,
    keyActivityLevel := 1, alphaValue := 0, betaValue := 0 }

/-- An input-system state with zero pointer displacement, no held keys, zero
key activity, and both drive values at 1. -/
def calmState : InputState :=
  { mouseX := 0, mouseY := 0, prevMouseX := 0, prevMouseY := 0,
    mouseVelocity := 0, mouseDirection := 0, keysPressedCount := 0,
    keyActivityLevel := 0, alphaValue := 1, betaValue := 1 }

/- Small evaluation lemmas for 4-vector literals. -/

/-- Entry 0 of a 4-vector literal. -/
@[simp] lemma vec4_zero (a b c d : ℝ) : ![a, b, c, d] 0 = a := rfl

/-- Entry 1 of a 4-vector literal. -/
@[simp] lemma vec4_one (a b c d : ℝ) : ![a, b, c, d] 1 = b := rfl

/-- Entry 2 of a 4-vector literal. -/
@[simp] lemma vec4_two (a b c d : ℝ) : ![a, b, c, d] 2 = c := rfl

/-- Entry 3 of a 4-vector literal. -/
@[simp] lemma vec4_three (a b c d : ℝ) : ![a, b, c, d] 3 = d := rfl

/-- With an all-zero probability vector and a non-negative draw, the collapse
loop never breaks. -/
lemma collapseIndex_of_zero {p : Fin 4 → ℝ} (hp : ∀ i, p i = 0) {r : ℝ}
    (hr : 0 ≤ r) : collapseIndex p r = none := by
  have h0 : ¬ r < p 0 := by rw [hp 0]; linarith
  have h1 : ¬ r < p 0 + p 1 := by rw [hp 0, hp 1]; linarith
  have h2 : ¬ r < p 0 + p 1 + p 2 := by rw [hp 0, hp 1, hp 2]; linarith
  have h3 : ¬ r < p 0 + p 1 + p 2 + p 3 := by
    rw [hp 0, hp 1, hp 2, hp 3]; linarith
  unfold collapseIndex
  rw [if_neg h0, if_neg h1, if_neg h2, if_neg h3]

/-- `measure` on an all-zero probability vector returns the unchanged state
and the trigger of the stale `lastMeasurement`. -/
lemma measure_of_zero {s : QState} (hp : ∀ i, s.probabilities i = 0) {r : ℝ}
    (hr : 0 ≤ r) : measure s r = (s, mapMeasurementToRhythm s.lastMeasurement) := by
  unfold measure
  rw [collapseIndex_of_zero hp hr]

/-- The probability entries of `zState` are all zero. -/
lemma zState_prob_zero : ∀ i, zState.probabilities i = 0 := by
  intro i; fin_cases i <;> simp [zState]

/-- C1 counterexample: on the all-zero probability state with draw `1/2`,
`measure` does not make the amplitudes (nor the probabilities) one-hot at
index 3 — there is no fallback collapse to the last basis index. -/
theorem measure_no_fallback_cex :
    ¬ ((measure zState (1 / 2)).1.amplitudes = oneHot 3 ∧
       (measure zState (1 / 2)).1.probabilities = oneHot 3 ∧
       (measure zState (1 / 2)).2 = mapMeasurementToRhythm (1, 1)) := by
  intro h
  have hm : measure zState (1 / 2) =
      (zState, mapMeasurementToRhythm zState.lastMeasurement) :=
    measure_of_zero zState_prob_zero (by norm_num)
  have h3 := congrFun h.1 3
  rw [hm] at h3
  simp [zState, oneHot] at h3

/-- C1 amended: when every probability entry is zero and the draw is
non-negative, `measure` performs no collapse at all: the state is returned
unchanged and the trigger is derived from the pre-existing
`lastMeasurement`, not from basis index 3. -/
theorem measure_degenerate_amended (s : QState) (r : ℝ)
    (hp : ∀ i, s.probabilities i = 0) (hr : 0 ≤ r) :
    measure s r = (s, mapMeasurementToRhythm s.lastMeasurement) :=
  measure_of_zero hp hr

/-- Witness for `measure_degenerate_amended` at the concrete all-zero state
and draw `1/3`. -/
theorem measure_degenerate_amended_witness :
    measure zState (1 / 3) = (zState, mapMeasurementToRhythm zState.lastMeasurement) :=
  measure_degenerate_amended zState (1 / 3) zState_prob_zero (by norm_num)

/-- C10: when `measure` runs while every probability entry is zero (and the
draw is in `[0,1)` hence non-negative), amplitudes, probabilities and
`lastMeasurement` are all left unmodified, the returned trigger comes from
the leftover `lastMeasurement`, and a leftover `(0,0)` yields the all-false
trigger. -/
theorem measure_allZero_frame (s : QState) (r : ℝ)
    (hp : ∀ i, s.probabilities i = 0) (hr : 0 ≤ r) :
    (measure s r).1 = s ∧
    (measure s r).2 = mapMeasurementToRhythm s.lastMeasurement ∧
    (s.lastMeasurement = (0, 0) →
      (measure s r).2 = ⟨false, false, false, false⟩) := by
  rw [measure_of_zero hp hr]
  refine ⟨rfl, rfl, fun h => ?_⟩
  rw [h]
  rfl

/-- Witness for `measure_allZero_frame` at the constructor-like all-zero
state, whose `lastMeasurement` is `(0,0)`. -/
theorem measure_allZero_frame_witness :
    (measure zState (1 / 2)).2 = ⟨false, false, false, false⟩ :=
  (measure_allZero_frame zState (1 / 2) zState_prob_zero (by norm_num)).2.2 rfl

/-- C4: whenever the collapse loop breaks at index `i`, the recorded
measurement is `((i >> 1) & 1, i & 1)` and the four returned rhythm flags
are exactly the fixed lookup on `stateValue = m.1 * 2 + m.2`. -/
theorem measure_trigger_mapping (s : QState) (r : ℝ) (i : Fin 4)
    (h : collapseIndex s.probabilities r = some i) :
    (measure s r).1.lastMeasurement = ((i.val >>> 1) &&& 1, i.val &&& 1) ∧
    ∀ sv : ℕ, sv = ((i.val >>> 1) &&& 1) * 2 + (i.val &&& 1) →
      (((measure s r).2.kick = true) ↔ (sv = 1 ∨ sv = 3)) ∧
      (((measure s r).2.snare = true) ↔ (sv = 2 ∨ sv = 3)) ∧
      (((measure s r).2.hihat = true) ↔ (sv = 1 ∨ sv = 2)) ∧
      (((measure s r).2.clap = true) ↔ sv = 3) := by
  have hm1 : (measure s r).1.lastMeasurement = ((i.val >>> 1) &&& 1, i.val &&& 1) := by
    unfold measure
    rw [h]
  have hm2 : (measure s r).2 = mapMeasurementToRhythm ((i.val >>> 1) &&& 1, i.val &&& 1) := by
    unfold measure
    rw [h]
  refine ⟨hm1, fun sv hsv => ?_⟩
  subst hsv
  rw [hm2]
  fin_cases i <;> exact ⟨by decide, by decide, by decide, by decide⟩

/-- Witness for `measure_trigger_mapping`: the fresh state collapses at index
0 under draw `1/2` and records measurement `(0,0)`. -/
theorem measure_trigger_mapping_witness :
    (measure initState (1 / 2)).1.lastMeasurement = ((0 : ℕ), (0 : ℕ)) ∧
    (((measure initState (1 / 2)).2.kick = true) ↔ ((0 : ℕ) = 1 ∨ (0 : ℕ) = 3)) := by
  have h := measure_trigger_mapping initState (1 / 2) 0
    (by norm_num [collapseIndex, initState])
  exact ⟨h.1, (h.2 0 (by decide)).1⟩

/-- When the sum of squared amplitudes is positive, `_updateProbabilities`
divides each square by the sum. -/
lemma updateProbabilities_pos {a : Fin 4 → ℝ} (h : 0 < sumSquares a) :
    updateProbabilities a = fun i => a i ^ 2 / sumSquares a := by
  show (if a 0 ^ 2 + a 1 ^ 2 + a 2 ^ 2 + a 3 ^ 2 > 0 then
      (fun i => a i ^ 2 / (a 0 ^ 2 + a 1 ^ 2 + a 2 ^ 2 + a 3 ^ 2))
    else fun i => a i ^ 2) = fun i => a i ^ 2 / sumSquares a
  rw [if_pos (show a 0 ^ 2 + a 1 ^ 2 + a 2 ^ 2 + a 3 ^ 2 > 0 from h)]
  rfl

/-- When the sum of squared amplitudes is zero, `_updateProbabilities` keeps
the raw squares. -/
lemma updateProbabilities_degenerate {a : Fin 4 → ℝ} (h : sumSquares a = 0) :
    updateProbabilities a = fun i => a i ^ 2 := by
  show (if a 0 ^ 2 + a 1 ^ 2 + a 2 ^ 2 + a 3 ^ 2 > 0 then
      (fun i => a i ^ 2 / (a 0 ^ 2 + a 1 ^ 2 + a 2 ^ 2 + a 3 ^ 2))
    else fun i => a i ^ 2) = fun i => a i ^ 2
  rw [if_neg]
  show ¬ 0 < a 0 ^ 2 + a 1 ^ 2 + a 2 ^ 2 + a 3 ^ 2
  rw [show a 0 ^ 2 + a 1 ^ 2 + a 2 ^ 2 + a 3 ^ 2 = 0 from h]
  exact lt_irrefl 0

/-- C2: every gate operation stores `_updateProbabilities` of its new
amplitudes, and `_updateProbabilities` yields the normalized squares — each
non-negative, summing to 1 — whenever the sum of squares is positive, while
an all-zero sum of squares leaves every probability zero. -/
theorem gates_probability_invariant (s : QState) (q c t : ℕ) (phi : ℝ)
    (a : Fin 4 → ℝ) :
    (applyHadamard q s).probabilities =
      updateProbabilities (applyHadamard q s).amplitudes ∧
    (applyCNOT c t s).probabilities =
      updateProbabilities (applyCNOT c t s).amplitudes ∧
    (applyPhaseRotation q phi s).probabilities =
      updateProbabilities (applyPhaseRotation q phi s).amplitudes ∧
    (0 < sumSquares a →
      (∀ i, updateProbabilities a i = a i ^ 2 / sumSquares a) ∧
      (∀ i, 0 ≤ updateProbabilities a i) ∧
      updateProbabilities a 0 + updateProbabilities a 1 +
        updateProbabilities a 2 + updateProbabilities a 3 = 1) ∧
    (sumSquares a = 0 → ∀ i, updateProbabilities a i = 0) := by
  refine ⟨rfl, rfl, rfl, fun h => ?_, fun h i => ?_⟩
  · have hup := updateProbabilities_pos h
    refine ⟨fun i => by rw [hup], fun i => by rw [hup]; positivity, ?_⟩
    rw [hup]
    show a 0 ^ 2 / sumSquares a + a 1 ^ 2 / sumSquares a +
      a 2 ^ 2 / sumSquares a + a 3 ^ 2 / sumSquares a = 1
    rw [div_add_div_same, div_add_div_same, div_add_div_same]
    exact div_self (ne_of_gt h)
  · have hup := updateProbabilities_degenerate h
    have hsq : a 0 ^ 2 + a 1 ^ 2 + a 2 ^ 2 + a 3 ^ 2 = 0 := h
    have e0 : a 0 ^ 2 = 0 := by
      nlinarith [sq_nonneg (a 0), sq_nonneg (a 1), sq_nonneg (a 2), sq_nonneg (a 3)]
    have e1 : a 1 ^ 2 = 0 := by
      nlinarith [sq_nonneg (a 0), sq_nonneg (a 1), sq_nonneg (a 2), sq_nonneg (a 3)]
    have e2 : a 2 ^ 2 = 0 := by
      nlinarith [sq_nonneg (a 0), sq_nonneg (a 1), sq_nonneg (a 2), sq_nonneg (a 3)]
    have e3 : a 3 ^ 2 = 0 := by
      nlinarith [sq_nonneg (a 0), sq_nonneg (a 1), sq_nonneg (a 2), sq_nonneg (a 3)]
    rw [hup]
    fin_cases i
    exacts [e0, e1, e2, e3]

/-- Witness for `gates_probability_invariant` on the amplitude vector
`[1,1,0,0]`, whose sum of squares is `2`. -/
theorem gates_probability_invariant_witness :
    (0 : ℝ) < sumSquares ![1, 1, 0, 0] ∧
    updateProbabilities ![1, 1, 0, 0] 0 = 1 / 2 := by
  have hpos : (0 : ℝ) < sumSquares ![1, 1, 0, 0] := by norm_num [sumSquares]
  have h := (gates_probability_invariant initState 0 0 1 0 ![1, 1, 0, 0]).2.2.2.1 hpos
  refine ⟨hpos, ?_⟩
  rw [h.1 0]
  norm_num [sumSquares]

/-- `applyHadamard` on qubit 0, evaluated on a vector literal. -/
lemma applyHadamardAmps_qubit0 (a b c d : ℝ) :
    applyHadamardAmps 0 ![a, b, c, d] =
      ![(a + b) / Real.sqrt 2, (a - b) / Real.sqrt 2,
        (c + d) / Real.sqrt 2, (c - d) / Real.sqrt 2] := by
  funext i
  fin_cases i <;> rfl

/-- `applyHadamard` on qubit 1, evaluated on a vector literal. -/
lemma applyHadamardAmps_qubit1 (a b c d : ℝ) :
    applyHadamardAmps 1 ![a, b, c, d] =
      ![(a + c) / Real.sqrt 2, (b + d) / Real.sqrt 2,
        (a - c) / Real.sqrt 2, (b - d) / Real.sqrt 2] := by
  funext i
  fin_cases i <;> rfl

/-- `applyCNOT` with control 0 and target 1, evaluated on a vector literal:
indices 1 and 3 swap. -/
lemma applyCNOTAmps_eval (a b c d : ℝ) :
    applyCNOTAmps 0 1 ![a, b, c, d] = ![a, d, c, b] := by
  funext i
  fin_cases i <;> rfl

/-- The phase rotation on qubit 0, evaluated on a vector literal: indices 1
and 3 are scaled by `cos phi`. -/
lemma applyPhaseRotationAmps_eval (phi a b c d : ℝ) :
    applyPhaseRotationAmps 0 phi ![a, b, c, d] =
      ![a, b * Real.cos phi, c, d * Real.cos phi] := by
  funext i
  fin_cases i <;> rfl

/-- C3: with both drives zero, no superposition transform fires, the
amplitudes stay `[1,0,0,0]` through the phase-rotation and CNOT steps, the
collapse loop breaks at index 0 for every draw in `[0,1)`, and the returned
trigger is all-false. -/
theorem processInput_zero_drives (s : QState) (r : ℝ) (h0 : 0 ≤ r) (h1 : r < 1) :
    superpositionStage 0 { reset s with phase := 0 * Real.pi } =
      { reset s with phase := 0 * Real.pi } ∧
    (applyPhaseRotation 0 (0 * Real.pi)
      { reset s with phase := 0 * Real.pi }).amplitudes = ![1, 0, 0, 0] ∧
    (processState 0 0 s).amplitudes = ![1, 0, 0, 0] ∧
    (processState 0 0 s).probabilities = ![1, 0, 0, 0] ∧
    collapseIndex (processState 0 0 s).probabilities r = some 0 ∧
    (processInput 0 0 s r).2 = ⟨false, false, false, false⟩ := by
  have hsup : superpositionStage 0 { reset s with phase := 0 * Real.pi } =
      { reset s with phase := 0 * Real.pi } := by
    simp only [superpositionStage]
    rw [if_neg (by norm_num : ¬ (0 : ℝ) > 0.3), if_neg (by norm_num : ¬ (0 : ℝ) > 0.6)]
  have hphamps : (applyPhaseRotation 0 (0 * Real.pi)
      { reset s with phase := 0 * Real.pi }).amplitudes = ![1, 0, 0, 0] := by
    show applyPhaseRotationAmps 0 (0 * Real.pi)
      ({ reset s with phase := 0 * Real.pi } : QState).amplitudes = ![1, 0, 0, 0]
    rw [show ({ reset s with phase := 0 * Real.pi } : QState).amplitudes
        = ![1, 0, 0, 0] from rfl, applyPhaseRotationAmps_eval]
    funext i
    fin_cases i <;> norm_num
  have hps : processState 0 0 s = applyCNOT 0 1 (applyPhaseRotation 0 (0 * Real.pi)
      { reset s with phase := 0 * Real.pi }) := by
    simp only [processState]
    rw [hsup]
  have hcnotamps : (processState 0 0 s).amplitudes = ![1, 0, 0, 0] := by
    rw [hps]
    show applyCNOTAmps 0 1 (applyPhaseRotation 0 (0 * Real.pi)
      { reset s with phase := 0 * Real.pi }).amplitudes = ![1, 0, 0, 0]
    rw [hphamps, applyCNOTAmps_eval]
  have hprob : (processState 0 0 s).probabilities = ![1, 0, 0, 0] := by
    rw [hps]
    show updateProbabilities (applyCNOTAmps 0 1 (applyPhaseRotation 0 (0 * Real.pi)
      { reset s with phase := 0 * Real.pi }).amplitudes) = ![1, 0, 0, 0]
    rw [hphamps, applyCNOTAmps_eval]
    rw [updateProbabilities_pos (by norm_num [sumSquares])]
    funext i
    fin_cases i <;> norm_num [sumSquares]
  have hcol : collapseIndex (processState 0 0 s).probabilities r = some 0 := by
    rw [hprob]
    unfold collapseIndex
    rw [if_pos (show r < (![1, 0, 0, 0] : Fin 4 → ℝ) 0 by rw [vec4_zero]; exact h1)]
  have htr : (processInput 0 0 s r).2 = ⟨false, false, false, false⟩ := by
    unfold processInput measure
    rw [hcol]
    rfl
  exact ⟨hsup, hphamps, hcnotamps, hprob, hcol, htr⟩

/-- Witness for `processInput_zero_drives` at the fresh state and draw `1/2`. -/
theorem processInput_zero_drives_witness :
    (processInput 0 0 initState (1 / 2)).2 = ⟨false, false, false, false⟩ :=
  (processInput_zero_drives initState (1 / 2) (by norm_num) (by norm_num)).2.2.2.2.2

/-- C5: the phase rotation on qubit 0 scales exactly the amplitudes at
indices with bit 0 set by `cos phi` and leaves the rest unchanged — the sine
component is never applied — and the phase `processInput` rotates by is
`betaValue * π`. -/
theorem phaseRotation_cos_only (phi : ℝ) (s : QState) (alpha beta : ℝ) :
    (applyPhaseRotation 0 phi s).amplitudes = (fun i =>
      if i.val &&& 1 = 1 then s.amplitudes i * Real.cos phi
      else s.amplitudes i) ∧
    processState alpha beta s =
      applyCNOT 0 1 (applyPhaseRotation 0 (beta * Real.pi)
        (superpositionStage alpha { reset s with phase := beta * Real.pi })) := by
  have hphase : ∀ (x : ℝ) (t : QState), (superpositionStage x t).phase = t.phase := by
    intro x t
    unfold superpositionStage
    split_ifs <;> rfl
  constructor
  · funext i
    rfl
  · simp only [processState]
    rw [hphase]

/-- C6: for `driveA > 0.6` both Hadamard transforms fire, and immediately
after them — before the phase rotation and the CNOT — all four probabilities
are exactly `0.25`. -/
theorem superposition_uniform (alpha beta : ℝ) (s : QState) (h : alpha > 0.6) :
    superpositionStage alpha { reset s with phase := beta * Real.pi } =
      applyHadamard 1 (applyHadamard 0 { reset s with phase := beta * Real.pi }) ∧
    (superpositionStage alpha
      { reset s with phase := beta * Real.pi }).probabilities = fun _ => 0.25 := by
  have h3 : alpha > 0.3 := lt_trans (by norm_num) h
  have hstage : superpositionStage alpha { reset s with phase := beta * Real.pi } =
      applyHadamard 1 (applyHadamard 0 { reset s with phase := beta * Real.pi }) := by
    simp only [superpositionStage]
    rw [if_pos h3, if_pos h]
  refine ⟨hstage, ?_⟩
  rw [hstage]
  have hs2 : Real.sqrt 2 * Real.sqrt 2 = 2 := Real.mul_self_sqrt (by norm_num)
  have hne : Real.sqrt 2 ≠ 0 := by positivity
  have hamps0 : (applyHadamard 0
      { reset s with phase := beta * Real.pi }).amplitudes =
      ![1 / Real.sqrt 2, 1 / Real.sqrt 2, 0, 0] := by
    show applyHadamardAmps 0
      ({ reset s with phase := beta * Real.pi } : QState).amplitudes = _
    rw [show ({ reset s with phase := beta * Real.pi } : QState).amplitudes
        = ![1, 0, 0, 0] from rfl, applyHadamardAmps_qubit0]
    funext i
    fin_cases i <;> norm_num
  have hamps1 : (applyHadamard 1 (applyHadamard 0
      { reset s with phase := beta * Real.pi })).amplitudes =
      ![1 / 2, 1 / 2, 1 / 2, 1 / 2] := by
    show applyHadamardAmps 1 (applyHadamard 0
      { reset s with phase := beta * Real.pi }).amplitudes = _
    rw [hamps0, applyHadamardAmps_qubit1]
    funext i
    fin_cases i <;> field_simp
  show updateProbabilities (applyHadamard 1 (applyHadamard 0
    { reset s with phase := beta * Real.pi })).amplitudes = fun _ => (0.25 : ℝ)
  rw [hamps1, updateProbabilities_pos (by norm_num [sumSquares])]
  funext i
  fin_cases i <;> norm_num [sumSquares]

/-- Witness for `superposition_uniform` at `driveA = 1`, `driveB = 0`. -/
theorem superposition_uniform_witness :
    (superpositionStage 1
      { reset initState with phase := 0 * Real.pi }).probabilities
      = fun _ => 0.25 :=
  (superposition_uniform 1 0 initState (by norm_num)).2

/-- C7: for influence `x ∈ [0,1]` the three genre weights are non-negative
and sum to exactly 1, the endpoints `0`, `1/2`, `1` give the pure low, mid
and high presets respectively, and the blended parameter is the
weight-weighted sum of the preset values (the defensive denominator being
exactly 1). -/
theorem genre_blend_simplex (x : ℝ) (hx0 : 0 ≤ x) (hx1 : x ≤ 1) :
    (0 ≤ (updateGenreBlend x).trance ∧ 0 ≤ (updateGenreBlend x).dubstep ∧
      0 ≤ (updateGenreBlend x).dnb) ∧
    (updateGenreBlend x).trance + (updateGenreBlend x).dubstep +
      (updateGenreBlend x).dnb = 1 ∧
    updateGenreBlend 0 = ⟨1, 0, 0⟩ ∧
    updateGenreBlend (1 / 2) = ⟨0, 1, 0⟩ ∧
    updateGenreBlend 1 = ⟨0, 0, 1⟩ ∧
    ∀ param : GenreParams → ℝ, blendGenreParams param x =
      param tranceParams * (updateGenreBlend x).trance +
      param dubstepParams * (updateGenreBlend x).dubstep +
      param dnbParams * (updateGenreBlend x).dnb := by
  have ht : (updateGenreBlend x).trance = max 0 (1 - 2 * x) := rfl
  have hn : (updateGenreBlend x).dnb = max 0 (2 * x - 1) := rfl
  have hd : (updateGenreBlend x).dubstep =
      1 - max 0 (1 - 2 * x) - max 0 (2 * x - 1) := rfl
  have hdub : 0 ≤ (updateGenreBlend x).dubstep := by
    rw [hd]
    rcases le_or_lt x (1 / 2) with hc | hc
    · rw [max_eq_left (by linarith : 2 * x - 1 ≤ 0),
        max_eq_right (by linarith : (0 : ℝ) ≤ 1 - 2 * x)]
      linarith
    · rw [max_eq_left (by linarith : 1 - 2 * x ≤ 0),
        max_eq_right (by linarith : (0 : ℝ) ≤ 2 * x - 1)]
      linarith
  have hsum : (updateGenreBlend x).trance + (updateGenreBlend x).dubstep +
      (updateGenreBlend x).dnb = 1 := by
    rw [ht, hd, hn]
    ring
  refine ⟨⟨ht ▸ le_max_left 0 _, hdub, hn ▸ le_max_left 0 _⟩, hsum, ?_, ?_, ?_, ?_⟩
  · norm_num [updateGenreBlend, GenreBlend.mk.injEq, max_def]
  · norm_num [updateGenreBlend, GenreBlend.mk.injEq, max_def]
  · norm_num [updateGenreBlend, GenreBlend.mk.injEq, max_def]
  · intro param
    show (param tranceParams * (updateGenreBlend x).trance +
        param dubstepParams * (updateGenreBlend x).dubstep +
        param dnbParams * (updateGenreBlend x).dnb) /
      ((updateGenreBlend x).trance + (updateGenreBlend x).dubstep +
        (updateGenreBlend x).dnb) = _
    rw [hsum, div_one]

/-- Witness for `genre_blend_simplex` at influence `1/4`. -/
theorem genre_blend_simplex_witness :
    (updateGenreBlend (1 / 4)).trance + (updateGenreBlend (1 / 4)).dubstep +
      (updateGenreBlend (1 / 4)).dnb = 1 :=
  (genre_blend_simplex (1 / 4) (by norm_num) (by norm_num)).2.1

/-- C8: on a running tick, the rhythm branch of `_update` fires — invoking
`processInput` and forwarding a `triggered` visualization update — exactly
when the drive signals moved more than the 0.05 threshold and the elapsed
time reached `adjustedInterval`; a non-triggered visualization update goes
out on every tick; and the adjusted interval is `minInterval` at
`driveA = 1` and `baseInterval` at `driveA = 0`. -/
theorem scheduler_gating (st : AppState) (alpha beta now r : ℝ)
    (h : st.isRunning = true) :
    (((appUpdate st alpha beta now r).2.rhythmFired.isSome = true) ↔
      ((|alpha - st.lastAlpha| > inputChangeThreshold ∨
        |beta - st.lastBeta| > inputChangeThreshold) ∧
        now - st.lastRhythmTriggerTime ≥ adjustedInterval alpha)) ∧
    ((appUpdate st alpha beta now r).2.rhythmFired.isSome = true →
      (appUpdate st alpha beta now r).2.rhythmFired =
        some (processInput alpha beta st.quantum r).2) ∧
    (false ∈ (appUpdate st alpha beta now r).2.visUpdates) ∧
    ((true ∈ (appUpdate st alpha beta now r).2.visUpdates) ↔
      (appUpdate st alpha beta now r).2.rhythmFired.isSome = true) ∧
    adjustedInterval 1 = minInterval ∧
    adjustedInterval 0 = baseInterval := by
  simp only [appUpdate, h]
  rw [if_neg (by simp : ¬ (true = false))]
  split_ifs with h1 h2
  · refine ⟨⟨fun _ => ⟨h1, h2⟩, fun _ => rfl⟩, fun _ => rfl, by simp, by simp, ?_, ?_⟩
    · norm_num [adjustedInterval, baseInterval, minInterval]
    · norm_num [adjustedInterval, baseInterval, minInterval]
  · refine ⟨⟨fun hc => by simp at hc, fun hc => absurd hc.2 h2⟩,
      fun hc => by simp at hc, by simp, by simp, ?_, ?_⟩
    · norm_num [adjustedInterval, baseInterval, minInterval]
    · norm_num [adjustedInterval, baseInterval, minInterval]
  · refine ⟨⟨fun hc => by simp at hc, fun hc => absurd hc.1 h1⟩,
      fun hc => by simp at hc, by simp, by simp, ?_, ?_⟩
    · norm_num [adjustedInterval, baseInterval, minInterval]
    · norm_num [adjustedInterval, baseInterval, minInterval]

/-- Witness for `scheduler_gating`: a running scheduler with stale drives 0,
receiving `driveA = 1` at time 1000, fires. -/
theorem scheduler_gating_witness :
    (appUpdate schedState 1 0 1000 (1 / 2)).2.rhythmFired.isSome = true := by
  have h := scheduler_gating schedState 1 0 1000 (1 / 2) rfl
  refine h.1.mpr ⟨Or.inl ?_, ?_⟩
  · norm_num [schedState, inputChangeThreshold]
  · norm_num [schedState, adjustedInterval, baseInterval, minInterval]

/-- One `InputSystem.update` tick under zero pointer displacement and no held
keys: `alphaValue` is scaled by `0.8`, `betaValue` becomes
`0.7·beta + 0.1425·keyActivityLevel` (the decayed activity level feeds in
with weight `0.95 · 0.5 · 0.3`), the activity level decays by `0.95`, and
the zero-displacement/no-keys configuration is preserved. -/
lemma inputUpdate_zero_input {t : InputState}
    (hx : t.mouseX = t.prevMouseX) (hy : t.mouseY = t.prevMouseY)
    (hk : t.keysPressedCount = 0) :
    (inputUpdate t).1.alphaValue = 0.8 * t.alphaValue ∧
    (inputUpdate t).1.betaValue = 0.7 * t.betaValue + 0.1425 * t.keyActivityLevel ∧
    (inputUpdate t).1.keyActivityLevel = t.keyActivityLevel * 0.95 ∧
    (inputUpdate t).1.mouseX = (inputUpdate t).1.prevMouseX ∧
    (inputUpdate t).1.mouseY = (inputUpdate t).1.prevMouseY ∧
    (inputUpdate t).1.keysPressedCount = 0 := by
  have hv : Real.sqrt ((t.mouseX - t.prevMouseX) * (t.mouseX - t.prevMouseX) +
      (t.mouseY - t.prevMouseY) * (t.mouseY - t.prevMouseY)) = 0 := by
    rw [hx, hy, sub_self, sub_self]
    norm_num
  have hfreq : min 1 (Real.sqrt ((t.mouseX - t.prevMouseX) * (t.mouseX - t.prevMouseX) +
      (t.mouseY - t.prevMouseY) * (t.mouseY - t.prevMouseY)) / 20) ^ (1.5 : ℝ) = 0 := by
    rw [hv]
    rw [show (0 : ℝ) / 20 = 0 by norm_num]
    rw [min_eq_right (by norm_num : (0 : ℝ) ≤ 1)]
    exact Real.zero_rpow (by norm_num)
  refine ⟨?_, ?_, rfl, rfl, rfl, hk⟩
  · show t.alphaValue * 0.8 + min 1 (Real.sqrt ((t.mouseX - t.prevMouseX) *
      (t.mouseX - t.prevMouseX) + (t.mouseY - t.prevMouseY) *
      (t.mouseY - t.prevMouseY)) / 20) ^ (1.5 : ℝ) * 0.2 = 0.8 * t.alphaValue
    rw [hfreq]
    ring
  · show t.betaValue * 0.7 + (min 1 ((t.keysPressedCount : ℝ) / 5) * 0.5 +
      t.keyActivityLevel * 0.95 * 0.5) * 0.3 =
      0.7 * t.betaValue + 0.1425 * t.keyActivityLevel
    rw [hk]
    rw [show min 1 (((0 : ℕ) : ℝ) / 5) = 0 by norm_num [min_def]]
    ring

/-- C9 counterexample: `staleKeyState` has zero pointer displacement, no held
keys, and both drive values in `[0,1]`, yet a single `update` tick strictly
increases `betaValue` (from 0 to 0.1425) — the drives do not decrease
monotonically on every tick. -/
theorem signal_decay_cex :
    staleKeyState.mouseX = staleKeyState.prevMouseX ∧
    staleKeyState.mouseY = staleKeyState.prevMouseY ∧
    staleKeyState.keysPressedCount = 0 ∧
    0 ≤ staleKeyState.alphaValue ∧ staleKeyState.alphaValue ≤ 1 ∧
    0 ≤ staleKeyState.betaValue ∧ staleKeyState.betaValue ≤ 1 ∧
    (inputUpdate staleKeyState).1.betaValue > staleKeyState.betaValue := by
  refine ⟨rfl, rfl, rfl, by norm_num [staleKeyState], by norm_num [staleKeyState],
    by norm_num [staleKeyState], by norm_num [staleKeyState], ?_⟩
  have h := inputUpdate_zero_input (t := staleKeyState) rfl rfl rfl
  rw [h.2.1]
  norm_num [staleKeyState]

/-- C9 amended: under sustained zero pointer displacement and no key events,
`alphaValue` is scaled by `0.8` each tick — hence non-negative,
non-increasing, and convergent to 0 — and `betaValue` stays non-negative,
is bounded by the geometric envelope `0.95^n·(beta₀ + keyActivity₀)`, and
converges to 0; `betaValue` is non-increasing on every tick whenever the
residual key-activity level starts at zero (without that assumption a tick
can increase it, as `signal_decay_cex` shows). -/
theorem signal_tracker_decay (st : InputState)
    (hx : st.mouseX = st.prevMouseX) (hy : st.mouseY = st.prevMouseY)
    (hk : st.keysPressedCount = 0)
    (ha0 : 0 ≤ st.alphaValue) (ha1 : st.alphaValue ≤ 1)
    (hb0 : 0 ≤ st.betaValue) (hb1 : st.betaValue ≤ 1)
    (hkl : 0 ≤ st.keyActivityLevel) :
    (∀ n, (inputIter (n + 1) st).alphaValue = 0.8 * (inputIter n st).alphaValue) ∧
    (∀ n, 0 ≤ (inputIter n st).alphaValue) ∧
    (∀ n, (inputIter (n + 1) st).alphaValue ≤ (inputIter n st).alphaValue) ∧
    (∀ n, 0 ≤ (inputIter n st).betaValue) ∧
    (∀ n, (inputIter n st).betaValue ≤
      0.95 ^ n * (st.betaValue + st.keyActivityLevel)) ∧
    Filter.Tendsto (fun n => (inputIter n st).alphaValue)
      Filter.atTop (nhds 0) ∧
    Filter.Tendsto (fun n => (inputIter n st).betaValue)
      Filter.atTop (nhds 0) ∧
    (st.keyActivityLevel = 0 →
      ∀ n, (inputIter (n + 1) st).betaValue ≤ (inputIter n st).betaValue) := by
  have hiter0 : inputIter 0 st = st := rfl
  have hiterS : ∀ n, inputIter (n + 1) st = (inputUpdate (inputIter n st)).1 := by
    intro n
    unfold inputIter
    exact Function.iterate_succ_apply' _ n st
  -- Invariant carried through the iteration.
  have key : ∀ n,
      (inputIter n st).mouseX = (inputIter n st).prevMouseX ∧
      (inputIter n st).mouseY = (inputIter n st).prevMouseY ∧
      (inputIter n st).keysPressedCount = 0 ∧
      (inputIter n st).alphaValue = 0.8 ^ n * st.alphaValue ∧
      (inputIter n st).keyActivityLevel = 0.95 ^ n * st.keyActivityLevel ∧
      0 ≤ (inputIter n st).betaValue ∧
      (inputIter n st).betaValue ≤
        0.95 ^ n * (st.betaValue + st.keyActivityLevel) := by
    intro n
    induction n with
    | zero =>
      rw [hiter0]
      refine ⟨hx, hy, hk, by norm_num, by norm_num, hb0, by norm_num; linarith⟩
    | succ n ih =>
      obtain ⟨ix, iy, ik, ia, ikl, ib0, ibd⟩ := ih
      obtain ⟨sa, sb, skl, sx, sy, sk⟩ := inputUpdate_zero_input ix iy ik
      rw [hiterS n]
      have hp : (0 : ℝ) ≤ 0.95 ^ n := by positivity
      refine ⟨sx, sy, sk, ?_, ?_, ?_, ?_⟩
      · rw [sa, ia]
        ring
      · rw [skl, ikl]
        ring
      · rw [sb]
        have hkn : 0 ≤ (inputIter n st).keyActivityLevel := by
          rw [ikl]
          exact mul_nonneg hp hkl
        linarith
      · rw [sb, ikl, pow_succ]
        nlinarith [hp, hkl, hb0, ibd]
  obtain ⟨halpha, hbeta0, hbetabd⟩ :
      (∀ n, (inputIter n st).alphaValue = 0.8 ^ n * st.alphaValue) ∧
      (∀ n, 0 ≤ (inputIter n st).betaValue) ∧
      (∀ n, (inputIter n st).betaValue ≤
        0.95 ^ n * (st.betaValue + st.keyActivityLevel)) :=
    ⟨fun n => (key n).2.2.2.1, fun n => (key n).2.2.2.2.2.1,
     fun n => (key n).2.2.2.2.2.2⟩
  have hrec : ∀ n, (inputIter (n + 1) st).alphaValue =
      0.8 * (inputIter n st).alphaValue := by
    intro n
    obtain ⟨ix, iy, ik, _, _, _, _⟩ := key n
    rw [hiterS n, (inputUpdate_zero_input ix iy ik).1]
  have hann : ∀ n, 0 ≤ (inputIter n st).alphaValue := by
    intro n
    rw [halpha n]
    positivity
  have htend_a : Filter.Tendsto (fun n => (inputIter n st).alphaValue)
      Filter.atTop (nhds 0) := by
    rw [show (fun n => (inputIter n st).alphaValue) =
        fun n => (0.8 : ℝ) ^ n * st.alphaValue from funext halpha]
    have := (tendsto_pow_atTop_nhds_zero_of_lt_one
      (by norm_num : (0 : ℝ) ≤ 0.8) (by norm_num)).mul_const st.alphaValue
    simpa using this
  have htend_b : Filter.Tendsto (fun n => (inputIter n st).betaValue)
      Filter.atTop (nhds 0) := by
    have hg : Filter.Tendsto
        (fun n => (0.95 : ℝ) ^ n * (st.betaValue + st.keyActivityLevel))
        Filter.atTop (nhds 0) := by
      have := (tendsto_pow_atTop_nhds_zero_of_lt_one
        (by norm_num : (0 : ℝ) ≤ 0.95) (by norm_num)).mul_const
        (st.betaValue + st.keyActivityLevel)
      simpa using this
    exact squeeze_zero hbeta0 hbetabd hg
  refine ⟨hrec, hann, fun n => ?_, hbeta0, hbetabd, htend_a, htend_b, fun hz n => ?_⟩
  · rw [hrec n]
    have := hann n
    linarith
  · obtain ⟨ix, iy, ik, _, ikl, ib0, _⟩ := key n
    rw [hiterS n, (inputUpdate_zero_input ix iy ik).2.1, ikl, hz]
    nlinarith [ib0]

/-- Witness for `signal_tracker_decay` at a concrete calm state with both
drives at 1 and no residual key activity. -/
theorem signal_tracker_decay_witness :
    (inputIter 1 calmState).alphaValue = 0.8 * (inputIter 0 calmState).alphaValue ∧
    (inputIter 1 calmState).betaValue ≤ (inputIter 0 calmState).betaValue := by
  have h := signal_tracker_decay calmState rfl rfl rfl
    (by norm_num [calmState]) (by norm_num [calmState])
    (by norm_num [calmState]) (by norm_num [calmState]) (by norm_num [calmState])
  exact ⟨h.1 0, h.2.2.2.2.2.2.2 rfl 0⟩

end NeuroQuantum
